import Mathlib

/-!
Verification development for the snippet data-access and live-query layer of
the code-snippet web application (Firestore-backed Next.js app).

The JavaScript source in `src/lib/firebase/snippets.js` (the Snippet
Repository: `getSnippets`, `getSnippet`, `addSnippet`, `updateSnippet`,
`deleteSnippet`, `getLanguages`, `getFrameworks`, `getAllTags`) and the
client-side sort in `src/components/LanguageSnippets.jsx`
(`getSortedSnippets`) are shallowly embedded here:

* Firestore document data (a JS object) is a list of field-name/value pairs
  with first-match lookup; JS object spread `{...a, ...b}` is `objMerge`
  (later keys override earlier ones — field order is immaterial, all claims
  access fields through `getField`).
* The snippets collection is a list of id/data pairs.
* Timestamps are natural numbers; `Timestamp.now()` becomes an explicit
  `now` parameter.
* A query with `where`/`orderBy("createdAt","desc")`/`limit(50)` is
  evaluated against the collection; following Firestore semantics, `orderBy`
  on a field restricts to documents where that field holds a value of the
  ordered type (documents written through `addSnippet` always carry a
  timestamp `createdAt`).
* JS `Array.prototype.sort` (stable, ES2019+) with a consistent comparator
  is modelled by a stable insertion sort `sortBy`.
-/

/-- A non-array Firestore field value: strings, numbers, booleans and
timestamps (the scalar types this application stores). -/
inductive Prim : Type where
  | pStr (s : String)
  | pNum (n : Int)
  | pBool (b : Bool)
  | pTime (t : Nat)
  deriving DecidableEq, Repr

/-- A Firestore field value: a scalar or an array of scalars (Firestore
rejects nested arrays, so array elements are non-array values). -/
inductive Value : Type where
  | vStr (s : String)
  | vNum (n : Int)
  | vBool (b : Bool)
  | vTime (t : Nat)
  | vArr (elems : List Prim)
  deriving DecidableEq, Repr

/-- Document data: a JS object as a list of field/value pairs,
looked up by first match. -/
abbrev DocData := List (String × Value)

/-- The snippets collection: document id paired with document data. -/
abbrev Store := List (String × DocData)

/-- Field lookup in a JS object / Firestore document. -/
def getField : DocData → String → Option Value
  | [], _ => none
  | p :: rest, k => if p.1 = k then some p.2 else getField rest k

/-- Whether a JS object has a field. -/
def hasField (d : DocData) (k : String) : Bool :=
  (getField d k).isSome

/-- JS object spread `{...a, ...b}`: fields of `b` override fields of `a`.
(The embedding drops the overridden entries of `a`; field order is
immaterial because every access goes through `getField`.) -/
def objMerge : DocData → DocData → DocData
  | [], b => b
  | p :: rest, b => if hasField b p.1 then objMerge rest b else p :: objMerge rest b

/-- The result object `{ id: doc.id, ...doc.data() }` built by the read
operations. -/
def mkResult (id : String) (d : DocData) : DocData :=
  objMerge [("id", Value.vStr id)] d

/-- Lookup of a document by id in the collection (first match). -/
def docLookup : Store → String → Option DocData
  | [], _ => none
  | d :: rest, id => if d.1 = id then some d.2 else docLookup rest id

/-- JS truthiness of a stored value (`if (data.language)` etc.):
empty string, zero and `false` are falsy; arrays and timestamp objects are
always truthy. -/
def truthy : Value → Bool
  | .vStr s => decide (s ≠ "")
  | .vNum n => decide (n ≠ 0)
  | .vBool b => b
  | .vTime _ => true
  | .vArr _ => true

/-- String conversion of a scalar value (JS `String(x)`). -/
def primString : Prim → String
  | .pStr s => s
  | .pNum n => toString n
  | .pBool b => toString b
  | .pTime t => toString t

/-- String conversion used by JS default `Array.prototype.sort`
(elements are compared as strings). -/
def jsString : Value → String
  | .vStr s => s
  | .vNum n => toString n
  | .vBool b => toString b
  | .vTime t => toString t
  | .vArr elems => String.intercalate "," (elems.map primString)

/-- JS string comparison: lexicographic on the character sequence
(UTF-16 code units in JS; code points here — identical on the basic
multilingual plane). -/
def strLe (a b : String) : Bool :=
  decide (a.data ≤ b.data)

/-- Stable insertion of `x` into a sorted list: `x` is placed before the
first element it is `le`-below, hence after every earlier equal element. -/
def insertSorted (le : α → α → Bool) (x : α) : List α → List α
  | [] => [x]
  | y :: ys => if le x y then x :: y :: ys else y :: insertSorted le x ys

/-- Stable sort (models JS `Array.prototype.sort`, stable per ES2019, with a
consistent comparator `le a b ↔ comparator(a,b) ≤ 0`). -/
def sortBy (le : α → α → Bool) : List α → List α
  | [] => []
  | x :: xs => insertSorted le x (sortBy le xs)

theorem insertSorted_perm (le : α → α → Bool) (x : α) (l : List α) :
    (insertSorted le x l).Perm (x :: l) := by
  induction l with
  | nil => simp [insertSorted]
  | cons y ys ih =>
    by_cases h : le x y
    · simp [insertSorted, h]
    · simp only [insertSorted, h, if_neg]
      exact ((ih.cons y).trans (List.Perm.swap x y ys)).symm.symm

theorem sortBy_perm (le : α → α → Bool) (l : List α) :
    (sortBy le l).Perm l := by
  induction l with
  | nil => simp [sortBy]
  | cons x xs ih =>
    exact (insertSorted_perm le x (sortBy le xs)).trans (ih.cons x)

theorem pairwise_insertSorted (le : α → α → Bool)
    (htrans : ∀ a b c, le a b = true → le b c = true → le a c = true)
    (htotal : ∀ a b, le a b = true ∨ le b a = true) (x : α) (l : List α)
    (hl : l.Pairwise (fun a b => le a b = true)) :
    (insertSorted le x l).Pairwise (fun a b => le a b = true) := by
  induction l with
  | nil => simp [insertSorted]
  | cons y ys ih =>
    rcases hl with _ | ⟨hy, hys⟩
    by_cases h : le x y
    · simp only [insertSorted, h, if_pos]
      refine List.Pairwise.cons ?_ (List.Pairwise.cons hy hys)
      intro b hb
      rcases List.mem_cons.mp hb with rfl | hb
      · exact h
      · exact htrans x y b h (hy b hb)
    · simp only [insertSorted, h, if_neg]
      refine List.Pairwise.cons ?_ (ih hys)
      intro b hb
      have hmem := (insertSorted_perm le x ys).mem_iff.mp hb
      rcases List.mem_cons.mp hmem with rfl | hb'
      · rcases htotal y b with hyb | hby
        · exact hyb
        · exact absurd hby h
      · exact hy b hb'

theorem pairwise_sortBy (le : α → α → Bool)
    (htrans : ∀ a b c, le a b = true → le b c = true → le a c = true)
    (htotal : ∀ a b, le a b = true ∨ le b a = true) (l : List α) :
    (sortBy le l).Pairwise (fun a b => le a b = true) := by
  induction l with
  | nil => simp [sortBy]
  | cons x xs ih => exact pairwise_insertSorted le htrans htotal x (sortBy le xs) ih

/-! ## The Filter/Sort Composer: query construction in `getSnippets` -/

/-- The filter options accepted by `getSnippets` (`filters.language`,
`filters.framework`, `filters.tag`); `none` models an absent key. -/
structure Filters : Type where
  language : Option String
  framework : Option String
  tag : Option String

/-- `getSnippets({}, ...)`: no filter criteria. -/
def emptyFilters : Filters := ⟨none, none, none⟩

/-- A Firestore `where` condition as chained by `getSnippets`: an equality
condition or an array-membership (`array-contains`) condition. The compared
value is always a string in this code (a UI-selected filter value). -/
inductive Cond : Type where
  | whereEq (fld : String) (v : String)
  | whereArrayContains (fld : String) (v : String)
  deriving DecidableEq, Repr

/-- The document field a condition constrains. -/
def condField : Cond → String
  | .whereEq fld _ => fld
  | .whereArrayContains fld _ => fld

/-- The condition contributed by one optional equality criterion
(`if (filters.language) q = query(q, where("language", "==", ...))`):
nothing when the value is absent or empty (JS-falsy). -/
def condsOfEq (fld : String) (o : Option String) : List Cond :=
  match o with
  | some v => if v = "" then [] else [Cond.whereEq fld v]
  | none => []

/-- The condition contributed by the optional tag criterion
(`if (filters.tag) q = query(q, where("tags", "array-contains", ...))`). -/
def condsOfArrayContains (fld : String) (o : Option String) : List Cond :=
  match o with
  | some v => if v = "" then [] else [Cond.whereArrayContains fld v]
  | none => []

/-- The `where` conditions chained onto the query by `getSnippets`:
one equality condition per truthy `language`/`framework` filter, one
`array-contains` condition for a truthy `tag` filter (JS truthiness: an
absent or empty-string filter value adds no condition). -/
def buildConds (f : Filters) : List Cond :=
  condsOfEq "language" f.language ++ condsOfEq "framework" f.framework
    ++ condsOfArrayContains "tags" f.tag

/-- Firestore evaluation of a single `where` condition on a document:
`==` requires the field to hold exactly the value; `array-contains`
requires the field to hold an array with the value among its elements. -/
def condHolds (d : DocData) : Cond → Bool
  | .whereEq fld v => getField d fld == some (Value.vStr v)
  | .whereArrayContains fld v =>
      match getField d fld with
      | some (Value.vArr elems) => decide (Prim.pStr v ∈ elems)
      | _ => false

/-- A document matches the query when every chained condition holds
(Firestore combines chained `where` clauses with logical AND). -/
def matchesConds (conds : List Cond) (d : DocData) : Bool :=
  conds.all (condHolds d)

/-- The `createdAt` sort key; also the key of the client-side date sorts
(`a.createdAt?.toDate() || new Date(0)`: a missing timestamp reads as
epoch 0, the earliest possible instant). -/
def createdAtKey (d : DocData) : Nat :=
  match getField d "createdAt" with
  | some (Value.vTime t) => t
  | _ => 0

/-- Whether a document carries a timestamp `createdAt`. Firestore
`orderBy("createdAt", ...)` returns only such documents (documents written
through `addSnippet` always do). -/
def hasCreatedAt (d : DocData) : Bool :=
  match getField d "createdAt" with
  | some (Value.vTime _) => true
  | _ => false

/-- The documents matching the chained `where` conditions of
`getSnippets(filters, ...)`. -/
def matchingDocs (f : Filters) (store : Store) : Store :=
  store.filter (fun d => matchesConds (buildConds f) d.2)

/-- Comparator of `orderBy("createdAt", "desc")`: newest first. -/
def descByCreatedAt (a b : String × DocData) : Bool :=
  decide (createdAtKey b.2 ≤ createdAtKey a.2)

/-- The matching documents as ordered by
`orderBy("createdAt", "desc")`. -/
def orderedDocs (f : Filters) (store : Store) : Store :=
  sortBy descByCreatedAt ((matchingDocs f store).filter (fun d => hasCreatedAt d.2))

/-- `getSnippets(filters, callback)`: the result set delivered to the
subscription callback for a given collection state — the matching
documents, ordered by `createdAt` descending, limited to 50, each mapped
to `{ id: doc.id, ...doc.data() }`. -/
def getSnippets (f : Filters) (store : Store) : List DocData :=
  ((orderedDocs f store).take 50).map (fun d => mkResult d.1 d.2)

/-! ## The Snippet Repository: point reads and writes -/

/-- `getSnippet(snippetId)`: `none` models the thrown
`Error("Snippet not found")` when no document with that id exists;
otherwise the result is `{ id: snippetDoc.id, ...snippetDoc.data() }`. -/
def getSnippet (store : Store) (snippetId : String) : Option DocData :=
  (docLookup store snippetId).map (fun d => mkResult snippetId d)

/-- `addSnippet(snippetData)`: spreads the draft, stamps
`createdAt`/`updatedAt` with the current time and `rating`/`numRatings`
with zero, persists, and returns the store-assigned id (`newId`, passed in
because Firestore assigns it). -/
def addSnippet (store : Store) (now : Nat) (snippetData : DocData)
    (newId : String) : Store × String :=
  let newSnippet := objMerge snippetData
    [("createdAt", Value.vTime now), ("updatedAt", Value.vTime now),
     ("rating", Value.vNum 0), ("numRatings", Value.vNum 0)]
  (store ++ [(newId, newSnippet)], newId)

/-- `updateSnippet(snippetId, snippetData)`: `updateDoc` merges
`{...snippetData, updatedAt: Timestamp.now()}` into the existing document
at the top level; it rejects (`none`) when the document does not exist. -/
def updateSnippet (store : Store) (now : Nat) (snippetId : String)
    (snippetData : DocData) : Option Store :=
  if (docLookup store snippetId).isSome then
    some (store.map (fun d =>
      if d.1 = snippetId then
        (d.1, objMerge d.2 (objMerge snippetData [("updatedAt", Value.vTime now)]))
      else d))
  else none

/-- `deleteSnippet(snippetId)`: `deleteDoc` removes the document and
succeeds whether or not it exists. -/
def deleteSnippet (store : Store) (snippetId : String) : Store :=
  store.filter (fun d => decide (d.1 ≠ snippetId))

/-! ## The distinct-value scans -/

/-- JS `Set` insertion over a list: keeps the first occurrence of each
value, in insertion order. -/
def setFold [DecidableEq α] (acc : List α) : List α → List α
  | [] => acc
  | v :: rest => setFold (if v ∈ acc then acc else acc ++ [v]) rest

/-- JS default `Array.prototype.sort()`: elements compared as strings. -/
def jsSorted [DecidableEq α] (key : α → String) (l : List α) : List α :=
  sortBy (fun a b => strLe (key a) (key b)) l

/-- The full-scan collection phase shared by `getLanguages` and
`getFrameworks`: the truthy values of the named field, in document order
(`if (data.language) languages.add(data.language)`). -/
def collectField (store : Store) (fld : String) : List Value :=
  store.filterMap (fun d =>
    match getField d.2 fld with
    | some v => if truthy v then some v else none
    | none => none)

/-- `getLanguages()`: scan, dedupe through a `Set`, sort. -/
def getLanguages (store : Store) : List Value :=
  jsSorted jsString (setFold [] (collectField store "language"))

/-- `getFrameworks()`: scan, dedupe through a `Set`, sort. -/
def getFrameworks (store : Store) : List Value :=
  jsSorted jsString (setFold [] (collectField store "framework"))

/-- The collection phase of `getAllTags`: for each document whose `tags`
field holds an array (`data.tags && Array.isArray(data.tags)` — an array is
always truthy), all its elements, flattened in document order. -/
def collectTags (store : Store) : List Prim :=
  (store.map (fun d =>
    match getField d.2 "tags" with
    | some (Value.vArr elems) => elems
    | _ => [])).flatten

/-- `getAllTags()`: flatten, dedupe through a `Set`, sort. -/
def getAllTags (store : Store) : List Prim :=
  jsSorted primString (setFold [] (collectTags store))

/-! ## The client-side sort of `LanguageSnippets` (`getSortedSnippets`) -/

/-- `s.toLowerCase()` (character-wise lowering). -/
def lowerStr (s : String) : String :=
  String.mk (s.data.map Char.toLower)

/-- Code-point comparison of strings (JS `<`-style code-unit comparison;
identical on the basic multilingual plane). -/
def strCmp (a b : String) : Ordering :=
  if a.data < b.data then .lt else if b.data < a.data then .gt else .eq

/-- Model of JS `a.localeCompare(b)` under the default (root) locale for
the strings this application stores: base letters compare first
(case-insensitively); a case difference decides only otherwise-equal
strings, with lowercase ordered first (the collation's tertiary level,
realised here by the reversed code-point comparison of the tie case). -/
def localeCompare (a b : String) : Ordering :=
  match strCmp (lowerStr a) (lowerStr b) with
  | .eq => strCmp b a
  | o => o

/-- The title sort key `(a.title || "")`: a missing title (or an empty one,
which JS `||` also replaces) reads as the empty string. Titles are strings
per the collection's wire contract. -/
def titleKey (d : DocData) : String :=
  match getField d "title" with
  | some (Value.vStr s) => s
  | _ => ""

/-- The `titleAZ` comparator `(a.title || "").localeCompare(b.title || "")`
as a sort-order test: the comparator result is ≤ 0. -/
def titleLe (a b : DocData) : Bool :=
  (localeCompare (titleKey a) (titleKey b)).isLE

/-- `getSortedSnippets` of `LanguageSnippets.jsx`: re-sorts a delivered
result set in memory by the selected key (a JS `switch` compares the key
against each case label in turn with strict equality); an unrecognized key
falls through to the `default` branch, returning the (copied) list
unsorted. -/
def getSortedSnippets (sortKey : String) (snippets : List DocData) : List DocData :=
  if sortKey = "newest" then
    sortBy (fun a b => decide (createdAtKey b ≤ createdAtKey a)) snippets
  else if sortKey = "oldest" then
    sortBy (fun a b => decide (createdAtKey a ≤ createdAtKey b)) snippets
  else if sortKey = "titleAZ" then
    sortBy (fun a b => titleLe a b) snippets
  else if sortKey = "titleZA" then
    sortBy (fun a b => titleLe b a) snippets
  else snippets

/-! ## Helper lemmas about field lookup and object spread -/

theorem hasField_iff {d : DocData} {k : String} :
    hasField d k = true ↔ ∃ v, getField d k = some v := by
  simp [hasField, Option.isSome_iff_exists]

theorem getField_objMerge (a b : DocData) (k : String) :
    getField (objMerge a b) k =
      (match getField b k with
       | some v => some v
       | none => getField a k) := by
  induction a with
  | nil =>
    simp only [objMerge]
    cases h : getField b k <;> simp [getField]
  | cons p rest ih =>
    by_cases hp : hasField b p.1
    · rw [show objMerge (p :: rest) b = objMerge rest b by rw [objMerge, if_pos hp]]
      rw [ih]
      by_cases hk : p.1 = k
      · subst hk
        rcases hasField_iff.mp hp with ⟨v, hv⟩
        simp [hv]
      · cases h : getField b k <;> simp [h, getField, hk]
    · rw [show objMerge (p :: rest) b = p :: objMerge rest b by rw [objMerge, if_neg hp]]
      by_cases hk : p.1 = k
      · subst hk
        have hnone : getField b p.1 = none := by
          cases h : getField b p.1 with
          | none => rfl
          | some v => exact absurd (hasField_iff.mpr ⟨v, h⟩) hp
        simp [getField, hnone]
      · cases h : getField b k <;> simp [getField, hk, ih, h]

theorem getField_objMerge_some {a b : DocData} {k : String} {v : Value}
    (h : getField b k = some v) : getField (objMerge a b) k = some v := by
  rw [getField_objMerge, h]

theorem getField_objMerge_none {a b : DocData} {k : String}
    (h : getField b k = none) : getField (objMerge a b) k = getField a k := by
  rw [getField_objMerge, h]

theorem getField_mkResult {id : String} {d : DocData} {k : String}
    (hk : k ≠ "id") : getField (mkResult id d) k = getField d k := by
  rw [mkResult, getField_objMerge]
  cases h : getField d k with
  | some v => rfl
  | none =>
    show getField [("id", Value.vStr id)] k = none
    rw [getField, if_neg (fun hh => hk hh.symm)]
    rfl

example : getField [("a", Value.vNum 1), ("b", Value.vNum 2)] "b" = some (Value.vNum 2) := by decide
example : objMerge [("a", Value.vNum 1), ("b", Value.vNum 2)] [("b", Value.vNum 9)]
    = [("a", Value.vNum 1), ("b", Value.vNum 9)] := by decide
example : sortBy strLe ["b", "A", "c"] = ["A", "b", "c"] := by decide
example : getSnippets emptyFilters
    [("x", [("createdAt", Value.vTime 1)]), ("y", [("createdAt", Value.vTime 5)])]
    = [[("id", Value.vStr "y"), ("createdAt", Value.vTime 5)],
       [("id", Value.vStr "x"), ("createdAt", Value.vTime 1)]] := by decide

/-! ## Lemmas about document lookup -/

theorem docLookup_filter_ne (store : Store) (id : String) :
    docLookup (store.filter (fun d => decide (d.1 ≠ id))) id = none := by
  induction store with
  | nil => rfl
  | cons d rest ih =>
    rw [List.filter_cons]
    by_cases h : d.1 = id
    · rw [if_neg (by simp [h])]
      exact ih
    · rw [if_pos (by simp [h]), docLookup, if_neg h]
      exact ih

theorem docLookup_none_iff {store : Store} {id : String} :
    docLookup store id = none ↔ ∀ d ∈ store, d.1 ≠ id := by
  induction store with
  | nil => simp [docLookup]
  | cons d rest ih =>
    by_cases h : d.1 = id
    · simp [docLookup, h]
    · simp [docLookup, h, ih]

theorem docLookup_of_mem {store : Store} {id : String} {data : DocData}
    (hmem : (id, data) ∈ store) (hnd : (store.map Prod.fst).Nodup) :
    docLookup store id = some data := by
  induction store with
  | nil => cases hmem
  | cons d rest ih =>
    rcases List.mem_cons.mp hmem with rfl | hmem'
    · simp [docLookup]
    · have hne : d.1 ≠ id := by
        intro hid
        have : id ∈ rest.map Prod.fst := List.mem_map.mpr ⟨(id, data), hmem', rfl⟩
        rw [List.map_cons] at hnd
        exact (List.nodup_cons.mp hnd).1 (hid ▸ this)
      rw [docLookup, if_neg hne]
      exact ih hmem' (List.nodup_cons.mp (List.map_cons _ _ _ ▸ hnd)).2

theorem docLookup_append_fresh (store : Store) (id : String) (data : DocData)
    (hfresh : ∀ d ∈ store, d.1 ≠ id) :
    docLookup (store ++ [(id, data)]) id = some data := by
  induction store with
  | nil => simp [docLookup]
  | cons d rest ih =>
    have hne : d.1 ≠ id := hfresh d (List.mem_cons_self d rest)
    rw [List.cons_append, docLookup, if_neg hne]
    exact ih (fun x hx => hfresh x (List.mem_cons_of_mem d hx))

theorem docLookup_map_update {store : Store} {id : String} {old : DocData}
    (g : DocData → DocData) (hold : docLookup store id = some old) :
    docLookup (store.map (fun d => if d.1 = id then (d.1, g d.2) else d)) id
      = some (g old) := by
  induction store with
  | nil => cases hold
  | cons d rest ih =>
    by_cases h : d.1 = id
    · rw [docLookup, if_pos h] at hold
      injection hold with hold
      subst hold
      simp [docLookup, h]
    · rw [docLookup, if_neg h] at hold
      simp only [List.map_cons, if_neg h]
      rw [docLookup, if_neg h]
      exact ih hold

/-- C4: `deleteSnippet(id)` removes the document unconditionally and is
idempotent: after it, `getSnippet(id)` fails with NotFound; deleting a
second time (or deleting a nonexistent id) does not fail and leaves the
collection as it is. -/
theorem deleteSnippet_unconditional_idempotent (store : Store) (snippetId : String) :
    getSnippet (deleteSnippet store snippetId) snippetId = none ∧
    deleteSnippet (deleteSnippet store snippetId) snippetId = deleteSnippet store snippetId ∧
    ((∀ d ∈ store, d.1 ≠ snippetId) → deleteSnippet store snippetId = store) := by
  refine ⟨?_, ?_, ?_⟩
  · rw [getSnippet, deleteSnippet, docLookup_filter_ne]
    rfl
  · simp only [deleteSnippet]
    rw [List.filter_filter]
    exact List.filter_congr (fun x _ => Bool.and_self _)
  · intro h
    rw [deleteSnippet]
    exact List.filter_eq_self.mpr (fun d hd => decide_eq_true (h d hd))

theorem deleteSnippet_unconditional_idempotent_witness :
    deleteSnippet [("s1", [("title", Value.vStr "t")])] "zz"
      = [("s1", [("title", Value.vStr "t")])] :=
  (deleteSnippet_unconditional_idempotent
      [("s1", [("title", Value.vStr "t")])] "zz").2.2 (by decide)

theorem getField_mkResult_id {id : String} {d : DocData}
    (h : getField d "id" = none) :
    getField (mkResult id d) "id" = some (Value.vStr id) := by
  rw [mkResult, getField_objMerge, h]
  rfl

/-- C5: `getSnippet(id)` fails with NotFound exactly when no document with
that id exists; otherwise it returns the stored document's full attribute
set plus its id. -/
theorem getSnippet_notFound_iff (store : Store) (snippetId : String) :
    (getSnippet store snippetId = none ↔ ∀ d ∈ store, d.1 ≠ snippetId) ∧
    (∀ data, (snippetId, data) ∈ store → (store.map Prod.fst).Nodup →
      getSnippet store snippetId = some (mkResult snippetId data)) ∧
    (∀ data k, k ≠ "id" → getField (mkResult snippetId data) k = getField data k) ∧
    (∀ data, getField data "id" = none →
      getField (mkResult snippetId data) "id" = some (Value.vStr snippetId)) := by
  refine ⟨?_, ?_, ?_, ?_⟩
  · rw [getSnippet, Option.map_eq_none']
    exact docLookup_none_iff
  · intro data hmem hnd
    rw [getSnippet, docLookup_of_mem hmem hnd]
    rfl
  · intro data k hk
    exact getField_mkResult hk
  · intro data h
    exact getField_mkResult_id h

theorem getSnippet_notFound_iff_witness :
    getSnippet [("s1", [("title", Value.vStr "t")])] "zz" = none ∧
    getSnippet [("s1", [("title", Value.vStr "t")])] "s1"
      = some (mkResult "s1" [("title", Value.vStr "t")]) :=
  ⟨(getSnippet_notFound_iff [("s1", [("title", Value.vStr "t")])] "zz").1.mpr (by decide),
   (getSnippet_notFound_iff [("s1", [("title", Value.vStr "t")])] "s1").2.1
     [("title", Value.vStr "t")] (by decide) (by decide)⟩

/-- C6: `addSnippet(snippetDraft)` persists the draft's fields with
`createdAt` and `updatedAt` stamped to the current server time and
`rating`/`numRatings` initialized to zero, keeps the existing documents,
and returns the id newly assigned by the store. -/
theorem addSnippet_stamps_and_returns_id (store : Store) (now : Nat)
    (snippetData : DocData) (newId : String)
    (hfresh : ∀ d ∈ store, d.1 ≠ newId) :
    (addSnippet store now snippetData newId).2 = newId ∧
    (∃ newDoc, docLookup (addSnippet store now snippetData newId).1 newId = some newDoc ∧
      getField newDoc "createdAt" = some (Value.vTime now) ∧
      getField newDoc "updatedAt" = some (Value.vTime now) ∧
      getField newDoc "rating" = some (Value.vNum 0) ∧
      getField newDoc "numRatings" = some (Value.vNum 0) ∧
      (∀ k, k ≠ "createdAt" → k ≠ "updatedAt" → k ≠ "rating" → k ≠ "numRatings" →
        getField newDoc k = getField snippetData k)) ∧
    (∀ d ∈ store, d ∈ (addSnippet store now snippetData newId).1) := by
  refine ⟨rfl, ⟨objMerge snippetData
      [("createdAt", Value.vTime now), ("updatedAt", Value.vTime now),
       ("rating", Value.vNum 0), ("numRatings", Value.vNum 0)], ?_, ?_, ?_, ?_, ?_, ?_⟩, ?_⟩
  · exact docLookup_append_fresh store newId _ hfresh
  · exact getField_objMerge_some rfl
  · exact getField_objMerge_some rfl
  · exact getField_objMerge_some rfl
  · exact getField_objMerge_some rfl
  · intro k h1 h2 h3 h4
    refine getField_objMerge_none ?_
    rw [getField, if_neg (fun h => h1 h.symm), getField, if_neg (fun h => h2 h.symm),
      getField, if_neg (fun h => h3 h.symm), getField, if_neg (fun h => h4 h.symm)]
    rfl
  · intro d hd
    exact List.mem_append_left _ hd

theorem addSnippet_stamps_and_returns_id_witness :
    (addSnippet [] 7 [("title", Value.vStr "t")] "n1").2 = "n1" ∧
    ∃ newDoc, docLookup (addSnippet [] 7 [("title", Value.vStr "t")] "n1").1 "n1" = some newDoc ∧
      getField newDoc "createdAt" = some (Value.vTime 7) ∧
      getField newDoc "rating" = some (Value.vNum 0) ∧
      getField newDoc "title" = some (Value.vStr "t") := by
  obtain ⟨hid, ⟨newDoc, hlook, hc, hu, hr, hn, hframe⟩, _⟩ :=
    addSnippet_stamps_and_returns_id [] 7 [("title", Value.vStr "t")] "n1" (by decide)
  exact ⟨hid, newDoc, hlook, hc, hr, hframe "title" (by decide) (by decide) (by decide) (by decide)⟩

/-- The merged document written by `updateSnippet` for the (first) document
with the given id. -/
theorem updateSnippet_writes {store : Store} {snippetId : String} {old : DocData}
    (now : Nat) (snippetData : DocData)
    (hold : docLookup store snippetId = some old) :
    updateSnippet store now snippetId snippetData =
      some (store.map (fun d =>
        if d.1 = snippetId then
          (d.1, objMerge d.2 (objMerge snippetData [("updatedAt", Value.vTime now)]))
        else d)) ∧
    docLookup (store.map (fun d =>
        if d.1 = snippetId then
          (d.1, objMerge d.2 (objMerge snippetData [("updatedAt", Value.vTime now)]))
        else d)) snippetId
      = some (objMerge old (objMerge snippetData [("updatedAt", Value.vTime now)])) := by
  constructor
  · rw [updateSnippet, if_pos (by rw [hold]; rfl)]
  · exact docLookup_map_update
      (fun y => objMerge y (objMerge snippetData [("updatedAt", Value.vTime now)])) hold

/-- C10: the `updatedAt` written by `updateSnippet` is the fresh stamp
taken at update time, even when the caller's `snippetData` itself contains
an `updatedAt` field (the spread puts the fresh stamp after, so it wins);
every other supplied field is written exactly as supplied. -/
theorem updateSnippet_updatedAt_protected (store : Store) (now : Nat)
    (snippetId : String) (snippetData : DocData) (old : DocData)
    (hold : docLookup store snippetId = some old) :
    ∃ st', updateSnippet store now snippetId snippetData = some st' ∧
      ∃ newDoc, docLookup st' snippetId = some newDoc ∧
        getField newDoc "updatedAt" = some (Value.vTime now) ∧
        (∀ k v, k ≠ "updatedAt" → getField snippetData k = some v →
          getField newDoc k = some v) := by
  obtain ⟨hupd, hlook⟩ := updateSnippet_writes now snippetData hold
  refine ⟨_, hupd, _, hlook, ?_, ?_⟩
  · exact getField_objMerge_some (getField_objMerge_some rfl)
  · intro k v hk hv
    refine getField_objMerge_some ?_
    rw [getField_objMerge_none (by rw [getField, if_neg (fun h => hk h.symm)]; rfl)]
    exact hv

theorem updateSnippet_updatedAt_protected_witness :
    ∃ st', updateSnippet
        [("s1", [("title", Value.vStr "old"), ("updatedAt", Value.vTime 1)])]
        5 "s1" [("updatedAt", Value.vTime 999), ("title", Value.vStr "new")] = some st' ∧
      ∃ newDoc, docLookup st' "s1" = some newDoc ∧
        getField newDoc "updatedAt" = some (Value.vTime 5) ∧
        getField newDoc "title" = some (Value.vStr "new") := by
  obtain ⟨st', hupd, newDoc, hlook, hstamp, hsupplied⟩ :=
    updateSnippet_updatedAt_protected
      [("s1", [("title", Value.vStr "old"), ("updatedAt", Value.vTime 1)])]
      5 "s1" [("updatedAt", Value.vTime 999), ("title", Value.vStr "new")]
      [("title", Value.vStr "old"), ("updatedAt", Value.vTime 1)] rfl
  exact ⟨st', hupd, newDoc, hlook, hstamp,
    hsupplied "title" (Value.vStr "new") (by decide) (by decide)⟩

theorem getField_single_ne {k k' : String} {v : Value} (h : k ≠ k') :
    getField [(k, v)] k' = none := by
  rw [getField, if_neg h]
  rfl

/-- Every delivered result is `{ id, ...data }` of a stored document that
matches the chained conditions and carries a timestamp `createdAt`. -/
theorem mem_getSnippets {f : Filters} {store : Store} {r : DocData}
    (hr : r ∈ getSnippets f store) :
    ∃ d, d ∈ store ∧ matchesConds (buildConds f) d.2 = true ∧
      hasCreatedAt d.2 = true ∧ r = mkResult d.1 d.2 := by
  rw [getSnippets] at hr
  obtain ⟨d, hd, rfl⟩ := List.mem_map.mp hr
  have hd1 : d ∈ orderedDocs f store := List.mem_of_mem_take hd
  have hd2 : d ∈ (matchingDocs f store).filter (fun d => hasCreatedAt d.2) :=
    (sortBy_perm _ _).mem_iff.mp hd1
  rw [List.mem_filter] at hd2
  have hd3 := hd2.1
  rw [matchingDocs, List.mem_filter] at hd3
  exact ⟨d, hd3.1, hd3.2, hd2.2, rfl⟩

/-- C8 (amended): read operations pass the `tags` field through unchanged —
when the stored document lacks `tags`, the delivered result also lacks it
(no defaulting to an empty sequence happens at read time). -/
theorem reads_pass_tags_through :
    (∀ (store : Store) (snippetId : String) (data : DocData),
      docLookup store snippetId = some data →
        getSnippet store snippetId = some (mkResult snippetId data) ∧
        getField (mkResult snippetId data) "tags" = getField data "tags") ∧
    (∀ (f : Filters) (store : Store) (r : DocData), r ∈ getSnippets f store →
      ∃ d, d ∈ store ∧ r = mkResult d.1 d.2 ∧
        getField r "tags" = getField d.2 "tags") := by
  constructor
  · intro store snippetId data hold
    constructor
    · rw [getSnippet, hold]
      rfl
    · exact getField_mkResult (by decide)
  · intro f store r hr
    obtain ⟨d, hmem, _, _, rfl⟩ := mem_getSnippets hr
    exact ⟨d, hmem, rfl, getField_mkResult (by decide)⟩

theorem reads_pass_tags_through_witness :
    getSnippet [("s1", [("title", Value.vStr "t"), ("createdAt", Value.vTime 1)])] "s1"
      = some (mkResult "s1" [("title", Value.vStr "t"), ("createdAt", Value.vTime 1)]) ∧
    getField (mkResult "s1" [("title", Value.vStr "t"), ("createdAt", Value.vTime 1)]) "tags"
      = getField [("title", Value.vStr "t"), ("createdAt", Value.vTime 1)] "tags" :=
  reads_pass_tags_through.1
    [("s1", [("title", Value.vStr "t"), ("createdAt", Value.vTime 1)])] "s1"
    [("title", Value.vStr "t"), ("createdAt", Value.vTime 1)] rfl

/-- C8 counterexample: for a stored document without a `tags` field, both
read operations deliver a result whose `tags` attribute is absent — not the
empty sequence the claim requires. -/
theorem reads_tags_not_defaulted_cex :
    ((getSnippets emptyFilters
        [("s1", [("title", Value.vStr "t"), ("createdAt", Value.vTime 1)])]).map
      (fun r => getField r "tags")) = [none] ∧
    ((getSnippet [("s1", [("title", Value.vStr "t"), ("createdAt", Value.vTime 1)])] "s1").map
      (fun r => getField r "tags")) = some none ∧
    (none : Option Value) ≠ some (Value.vArr []) := by decide

/-- C3 (amended): for an existing id, `updateSnippet` merges exactly the
given fields, re-stamps `updatedAt` to the update-time stamp (strictly
greater than the prior `updatedAt` whenever time has advanced), and leaves
`createdAt` and every field not present in the partial unchanged —
provided the partial does not itself contain a `createdAt` field (a
caller-supplied `createdAt`, like any field other than `updatedAt`, would
be written as given). -/
theorem updateSnippet_merge_and_frame (store : Store) (now : Nat)
    (snippetId : String) (snippetData : DocData) (old : DocData)
    (hold : docLookup store snippetId = some old)
    (hnc : getField snippetData "createdAt" = none) :
    ∃ st', updateSnippet store now snippetId snippetData = some st' ∧
      ∃ newDoc, docLookup st' snippetId = some newDoc ∧
        getField newDoc "createdAt" = getField old "createdAt" ∧
        getField newDoc "updatedAt" = some (Value.vTime now) ∧
        (∀ t, getField old "updatedAt" = some (Value.vTime t) → t < now →
          ∀ t', getField newDoc "updatedAt" = some (Value.vTime t') → t < t') ∧
        (∀ k v, k ≠ "updatedAt" → getField snippetData k = some v →
          getField newDoc k = some v) ∧
        (∀ k, k ≠ "updatedAt" → getField snippetData k = none →
          getField newDoc k = getField old k) := by
  obtain ⟨hupd, hlook⟩ := updateSnippet_writes now snippetData hold
  have hX : getField (objMerge snippetData [("updatedAt", Value.vTime now)]) "createdAt"
      = none := by
    rw [getField_objMerge_none (getField_single_ne (by decide))]
    exact hnc
  have hstamp : getField (objMerge old (objMerge snippetData
      [("updatedAt", Value.vTime now)])) "updatedAt" = some (Value.vTime now) :=
    getField_objMerge_some (getField_objMerge_some rfl)
  refine ⟨_, hupd, _, hlook, getField_objMerge_none hX, hstamp, ?_, ?_, ?_⟩
  · intro t ht hlt t' ht'
    rw [hstamp] at ht'
    injection ht' with h1
    injection h1 with h2
    omega
  · intro k v hk hv
    refine getField_objMerge_some ?_
    rw [getField_objMerge_none (getField_single_ne (fun h => hk h.symm))]
    exact hv
  · intro k hk hkn
    refine getField_objMerge_none ?_
    rw [getField_objMerge_none (getField_single_ne (fun h => hk h.symm))]
    exact hkn

theorem updateSnippet_merge_and_frame_witness :
    ∃ st', updateSnippet
        [("s1", [("title", Value.vStr "a"), ("createdAt", Value.vTime 1),
          ("updatedAt", Value.vTime 1)])] 5 "s1" [("title", Value.vStr "X")] = some st' ∧
      ∃ newDoc, docLookup st' "s1" = some newDoc ∧
        getField newDoc "createdAt" = some (Value.vTime 1) ∧
        getField newDoc "updatedAt" = some (Value.vTime 5) ∧
        getField newDoc "title" = some (Value.vStr "X") := by
  obtain ⟨st', hupd, newDoc, hlook, hc, hu, _, hsome, _⟩ :=
    updateSnippet_merge_and_frame
      [("s1", [("title", Value.vStr "a"), ("createdAt", Value.vTime 1),
        ("updatedAt", Value.vTime 1)])] 5 "s1" [("title", Value.vStr "X")]
      [("title", Value.vStr "a"), ("createdAt", Value.vTime 1),
        ("updatedAt", Value.vTime 1)] rfl (by decide)
  exact ⟨st', hupd, newDoc, hlook, hc.trans (by decide), hu,
    hsome "title" (Value.vStr "X") (by decide) (by decide)⟩

/-- C3 counterexample: a partial update that itself carries a `createdAt`
field overwrites the stored `createdAt` — the claim's "leaves createdAt
identical to its prior value" fails for that partialSnippet. -/
theorem updateSnippet_createdAt_overwritten_cex :
    ((updateSnippet [("s1", [("title", Value.vStr "old"), ("createdAt", Value.vTime 1),
          ("updatedAt", Value.vTime 1)])] 2 "s1" [("createdAt", Value.vTime 99)]).bind
        (fun st' => docLookup st' "s1")).map (fun d => getField d "createdAt")
      = some (some (Value.vTime 99)) ∧
    getField [("title", Value.vStr "old"), ("createdAt", Value.vTime 1),
        ("updatedAt", Value.vTime 1)] "createdAt" = some (Value.vTime 1) ∧
    some (Value.vTime 99) ≠ (some (Value.vTime 1) : Option Value) := by decide


/-! ## C1: query composition of `getSnippets` -/

theorem filter_condsOfEq_self {fld v : String} (hne : v ≠ "") :
    (condsOfEq fld (some v)).filter (fun c => decide (condField c = fld))
      = [Cond.whereEq fld v] := by
  simp [condsOfEq, hne, condField]

theorem filter_condsOfEq_other {fld fld' : String} (hne : fld ≠ fld')
    (o : Option String) :
    (condsOfEq fld o).filter (fun c => decide (condField c = fld')) = [] := by
  rcases o with _ | v
  · rfl
  · by_cases hv : v = "" <;> simp [condsOfEq, hv, condField, hne]

theorem condsOfEq_falsy {fld : String} {o : Option String}
    (h : o = none ∨ o = some "") : condsOfEq fld o = [] := by
  rcases h with rfl | rfl <;> rfl

theorem filter_condsOfArr_self {fld v : String} (hne : v ≠ "") :
    (condsOfArrayContains fld (some v)).filter (fun c => decide (condField c = fld))
      = [Cond.whereArrayContains fld v] := by
  simp [condsOfArrayContains, hne, condField]

theorem filter_condsOfArr_other {fld fld' : String} (hne : fld ≠ fld')
    (o : Option String) :
    (condsOfArrayContains fld o).filter (fun c => decide (condField c = fld')) = [] := by
  rcases o with _ | v
  · rfl
  · by_cases hv : v = "" <;> simp [condsOfArrayContains, hv, condField, hne]

theorem condsOfArr_falsy {fld : String} {o : Option String}
    (h : o = none ∨ o = some "") : condsOfArrayContains fld o = [] := by
  rcases h with rfl | rfl <;> rfl

theorem buildConds_language_present {f : Filters} {l : String}
    (hl : f.language = some l) (hne : l ≠ "") :
    (buildConds f).filter (fun c => decide (condField c = "language"))
      = [Cond.whereEq "language" l] := by
  rw [buildConds, hl, List.filter_append, List.filter_append,
    filter_condsOfEq_self hne, filter_condsOfEq_other (by decide) f.framework,
    filter_condsOfArr_other (by decide) f.tag]
  rfl

theorem buildConds_language_absent {f : Filters}
    (hl : f.language = none ∨ f.language = some "") :
    (buildConds f).filter (fun c => decide (condField c = "language")) = [] := by
  rw [buildConds, condsOfEq_falsy hl, List.nil_append, List.filter_append,
    filter_condsOfEq_other (by decide) f.framework,
    filter_condsOfArr_other (by decide) f.tag]
  rfl

theorem buildConds_framework_present {f : Filters} {fw : String}
    (hf : f.framework = some fw) (hne : fw ≠ "") :
    (buildConds f).filter (fun c => decide (condField c = "framework"))
      = [Cond.whereEq "framework" fw] := by
  rw [buildConds, hf, List.filter_append, List.filter_append,
    filter_condsOfEq_self hne, filter_condsOfEq_other (by decide) f.language,
    filter_condsOfArr_other (by decide) f.tag]
  rfl

theorem buildConds_framework_absent {f : Filters}
    (hf : f.framework = none ∨ f.framework = some "") :
    (buildConds f).filter (fun c => decide (condField c = "framework")) = [] := by
  rw [buildConds, condsOfEq_falsy hf, List.append_nil, List.filter_append,
    filter_condsOfEq_other (by decide) f.language,
    filter_condsOfArr_other (by decide) f.tag]
  rfl

theorem buildConds_tag_present {f : Filters} {t : String}
    (ht : f.tag = some t) (hne : t ≠ "") :
    (buildConds f).filter (fun c => decide (condField c = "tags"))
      = [Cond.whereArrayContains "tags" t] := by
  rw [buildConds, ht, List.filter_append, List.filter_append,
    filter_condsOfArr_self hne, filter_condsOfEq_other (by decide) f.language,
    filter_condsOfEq_other (by decide) f.framework]
  rfl

theorem buildConds_tag_absent {f : Filters}
    (ht : f.tag = none ∨ f.tag = some "") :
    (buildConds f).filter (fun c => decide (condField c = "tags")) = [] := by
  rw [buildConds, condsOfArr_falsy ht, List.append_nil, List.filter_append,
    filter_condsOfEq_other (by decide) f.language,
    filter_condsOfEq_other (by decide) f.framework]
  rfl

theorem getSnippets_language_filtered {f : Filters} {store : Store} {l : String}
    (hl : f.language = some l) (hne : l ≠ "") :
    ∀ r ∈ getSnippets f store, getField r "language" = some (Value.vStr l) := by
  intro r hr
  obtain ⟨d, _, hmatch, _, rfl⟩ := mem_getSnippets hr
  have hcond : Cond.whereEq "language" l ∈ buildConds f := by
    rw [buildConds, hl]
    exact List.mem_append.mpr (Or.inl (List.mem_append.mpr (Or.inl (by
      simp [condsOfEq, hne]))))
  rw [matchesConds] at hmatch
  have hc := List.all_eq_true.mp hmatch _ hcond
  rw [condHolds] at hc
  have heq : getField d.2 "language" = some (Value.vStr l) := eq_of_beq hc
  rw [getField_mkResult (by decide), heq]

theorem getSnippets_framework_filtered {f : Filters} {store : Store} {fw : String}
    (hf : f.framework = some fw) (hne : fw ≠ "") :
    ∀ r ∈ getSnippets f store, getField r "framework" = some (Value.vStr fw) := by
  intro r hr
  obtain ⟨d, _, hmatch, _, rfl⟩ := mem_getSnippets hr
  have hcond : Cond.whereEq "framework" fw ∈ buildConds f := by
    rw [buildConds, hf]
    exact List.mem_append.mpr (Or.inl (List.mem_append.mpr (Or.inr (by
      simp [condsOfEq, hne]))))
  rw [matchesConds] at hmatch
  have hc := List.all_eq_true.mp hmatch _ hcond
  rw [condHolds] at hc
  have heq : getField d.2 "framework" = some (Value.vStr fw) := eq_of_beq hc
  rw [getField_mkResult (by decide), heq]

theorem getSnippets_tag_filtered {f : Filters} {store : Store} {t : String}
    (ht : f.tag = some t) (hne : t ≠ "") :
    ∀ r ∈ getSnippets f store, ∃ elems,
      getField r "tags" = some (Value.vArr elems) ∧ Prim.pStr t ∈ elems := by
  intro r hr
  obtain ⟨d, _, hmatch, _, rfl⟩ := mem_getSnippets hr
  have hcond : Cond.whereArrayContains "tags" t ∈ buildConds f := by
    rw [buildConds, ht]
    exact List.mem_append.mpr (Or.inr (by simp [condsOfArrayContains, hne]))
  rw [matchesConds] at hmatch
  have hc := List.all_eq_true.mp hmatch _ hcond
  rw [condHolds] at hc
  cases hv : getField d.2 "tags" with
  | none => rw [hv] at hc; cases hc
  | some v =>
    cases v with
    | vArr elems =>
      rw [hv] at hc
      exact ⟨elems, by rw [getField_mkResult (by decide), hv], of_decide_eq_true hc⟩
    | vStr s => rw [hv] at hc; cases hc
    | vNum n => rw [hv] at hc; cases hc
    | vBool b => rw [hv] at hc; cases hc
    | vTime tt => rw [hv] at hc; cases hc

/-- C1: the query built by `getSnippets` contains exactly one equality
condition per present (truthy) `language`/`framework` criterion and one
array-membership condition for a present `tag` criterion, combined with
logical AND; an absent (or empty-string, hence JS-falsy) criterion
contributes no condition at all. Consequently every delivered snippet
satisfies each present criterion: its `language`/`framework` field equals
the criterion value and its `tags` array contains the tag criterion. -/
theorem getSnippets_query_composition (f : Filters) (store : Store) :
    (∀ l, f.language = some l → l ≠ "" →
      (buildConds f).filter (fun c => decide (condField c = "language"))
        = [Cond.whereEq "language" l]) ∧
    ((f.language = none ∨ f.language = some "") →
      (buildConds f).filter (fun c => decide (condField c = "language")) = []) ∧
    (∀ fw, f.framework = some fw → fw ≠ "" →
      (buildConds f).filter (fun c => decide (condField c = "framework"))
        = [Cond.whereEq "framework" fw]) ∧
    ((f.framework = none ∨ f.framework = some "") →
      (buildConds f).filter (fun c => decide (condField c = "framework")) = []) ∧
    (∀ t, f.tag = some t → t ≠ "" →
      (buildConds f).filter (fun c => decide (condField c = "tags"))
        = [Cond.whereArrayContains "tags" t]) ∧
    ((f.tag = none ∨ f.tag = some "") →
      (buildConds f).filter (fun c => decide (condField c = "tags")) = []) ∧
    (∀ d : DocData, matchesConds (buildConds f) d = true ↔
      ∀ c ∈ buildConds f, condHolds d c = true) ∧
    (∀ l, f.language = some l → l ≠ "" →
      ∀ r ∈ getSnippets f store, getField r "language" = some (Value.vStr l)) ∧
    (∀ fw, f.framework = some fw → fw ≠ "" →
      ∀ r ∈ getSnippets f store, getField r "framework" = some (Value.vStr fw)) ∧
    (∀ t, f.tag = some t → t ≠ "" →
      ∀ r ∈ getSnippets f store, ∃ elems,
        getField r "tags" = some (Value.vArr elems) ∧ Prim.pStr t ∈ elems) :=
  ⟨fun _ hl hne => buildConds_language_present hl hne,
   fun h => buildConds_language_absent h,
   fun _ hf hne => buildConds_framework_present hf hne,
   fun h => buildConds_framework_absent h,
   fun _ ht hne => buildConds_tag_present ht hne,
   fun h => buildConds_tag_absent h,
   fun d => by rw [matchesConds]; exact List.all_eq_true,
   fun _ hl hne => getSnippets_language_filtered hl hne,
   fun _ hf hne => getSnippets_framework_filtered hf hne,
   fun _ ht hne => getSnippets_tag_filtered ht hne⟩

theorem getSnippets_query_composition_witness :
    (buildConds ⟨some "Go", none, some "hooks"⟩).filter
        (fun c => decide (condField c = "language")) = [Cond.whereEq "language" "Go"] ∧
    (buildConds ⟨some "Go", none, some "hooks"⟩).filter
        (fun c => decide (condField c = "framework")) = [] ∧
    (buildConds ⟨some "Go", none, some "hooks"⟩).filter
        (fun c => decide (condField c = "tags")) = [Cond.whereArrayContains "tags" "hooks"] ∧
    (∀ r ∈ getSnippets ⟨some "Go", none, some "hooks"⟩
        [("a", [("language", Value.vStr "Go"), ("createdAt", Value.vTime 1),
          ("tags", Value.vArr [Prim.pStr "hooks"])])],
      getField r "language" = some (Value.vStr "Go")) := by
  obtain ⟨h1, _, _, h4, h5, _, _, h8, _, _⟩ :=
    getSnippets_query_composition ⟨some "Go", none, some "hooks"⟩
      [("a", [("language", Value.vStr "Go"), ("createdAt", Value.vTime 1),
        ("tags", Value.vArr [Prim.pStr "hooks"])])]
  exact ⟨h1 "Go" rfl (by decide), h4 (Or.inl rfl), h5 "hooks" rfl (by decide),
    h8 "Go" rfl (by decide)⟩

/-! ## C7: the distinct-value scans -/

theorem setFold_mem [DecidableEq α] (l : List α) :
    ∀ (acc : List α) (x : α), x ∈ setFold acc l ↔ x ∈ acc ∨ x ∈ l := by
  induction l with
  | nil => intro acc x; simp [setFold]
  | cons v rest ih =>
    intro acc x
    rw [setFold, ih]
    by_cases hv : v ∈ acc
    · rw [if_pos hv]
      constructor
      · rintro (h | h)
        · exact Or.inl h
        · exact Or.inr (List.mem_cons_of_mem v h)
      · rintro (h | h)
        · exact Or.inl h
        · rcases List.mem_cons.mp h with rfl | h2
          · exact Or.inl hv
          · exact Or.inr h2
    · rw [if_neg hv]
      constructor
      · rintro (h | h)
        · rcases List.mem_append.mp h with h1 | h1
          · exact Or.inl h1
          · exact Or.inr (List.mem_cons.mpr (Or.inl (List.mem_singleton.mp h1)))
        · exact Or.inr (List.mem_cons_of_mem v h)
      · rintro (h | h)
        · exact Or.inl (List.mem_append.mpr (Or.inl h))
        · rcases List.mem_cons.mp h with rfl | h2
          · exact Or.inl (List.mem_append.mpr (Or.inr (List.mem_singleton.mpr rfl)))
          · exact Or.inr h2

theorem setFold_nodup [DecidableEq α] (l : List α) :
    ∀ acc : List α, acc.Nodup → (setFold acc l).Nodup := by
  induction l with
  | nil => intro acc h; exact h
  | cons v rest ih =>
    intro acc h
    rw [setFold]
    by_cases hv : v ∈ acc
    · rw [if_pos hv]
      exact ih acc h
    · rw [if_neg hv]
      refine ih _ ?_
      rw [List.nodup_append]
      exact ⟨h, List.nodup_singleton v,
        fun x hx hxv => hv ((List.mem_singleton.mp hxv) ▸ hx)⟩

theorem jsSorted_perm [DecidableEq α] (key : α → String) (l : List α) :
    (jsSorted key l).Perm l :=
  sortBy_perm _ _

theorem jsSorted_pairwise [DecidableEq α] (key : α → String) (l : List α) :
    (jsSorted key l).Pairwise (fun a b => (key a).data ≤ (key b).data) := by
  have h := pairwise_sortBy (fun a b => strLe (key a) (key b))
    (fun a b c hab hbc => by
      simp only [strLe] at hab hbc ⊢
      exact decide_eq_true (le_trans (of_decide_eq_true hab) (of_decide_eq_true hbc)))
    (fun a b => by
      simp only [strLe]
      rcases le_total (key a).data (key b).data with h | h
      · exact Or.inl (decide_eq_true h)
      · exact Or.inr (decide_eq_true h)) l
  exact h.imp (fun hab => of_decide_eq_true (by simpa only [strLe] using hab))

theorem mem_collectTags {store : Store} {p : Prim} :
    p ∈ collectTags store ↔ ∃ d ∈ store, ∃ elems,
      getField d.2 "tags" = some (Value.vArr elems) ∧ p ∈ elems := by
  rw [collectTags, List.mem_flatten]
  constructor
  · rintro ⟨l, hl, hp⟩
    obtain ⟨d, hd, rfl⟩ := List.mem_map.mp hl
    cases hv : getField d.2 "tags" with
    | none => rw [hv] at hp; cases hp
    | some v =>
      cases v with
      | vArr elems =>
        rw [hv] at hp
        exact ⟨d, hd, elems, hv, hp⟩
      | vStr s => rw [hv] at hp; cases hp
      | vNum n => rw [hv] at hp; cases hp
      | vBool b => rw [hv] at hp; cases hp
      | vTime t => rw [hv] at hp; cases hp
  · rintro ⟨d, hd, elems, hv, hp⟩
    refine ⟨elems, List.mem_map.mpr ⟨d, hd, ?_⟩, hp⟩
    rw [hv]

/-- C7: each of `getLanguages`, `getFrameworks` and `getAllTags` returns a
sequence with no duplicate entries, sorted ascending by the case-sensitive
code-point order of the JS string images; `getAllTags` collects exactly the
elements of the per-snippet `tags` arrays (flattened before deduplication);
and for stored languages `["Go", "go", "Rust"]`, `getLanguages` returns
exactly `["Go", "Rust", "go"]` (ASCII uppercase sorting before
lowercase). -/
theorem distinct_scans_nodup_sorted :
    (∀ store : Store,
      (getLanguages store).Nodup ∧
      (getLanguages store).Pairwise (fun a b => (jsString a).data ≤ (jsString b).data) ∧
      (getFrameworks store).Nodup ∧
      (getFrameworks store).Pairwise (fun a b => (jsString a).data ≤ (jsString b).data) ∧
      (getAllTags store).Nodup ∧
      (getAllTags store).Pairwise (fun a b => (primString a).data ≤ (primString b).data) ∧
      (∀ p : Prim, p ∈ getAllTags store ↔ ∃ d ∈ store, ∃ elems,
        getField d.2 "tags" = some (Value.vArr elems) ∧ p ∈ elems)) ∧
    getLanguages
        [("a", [("language", Value.vStr "Go")]), ("b", [("language", Value.vStr "go")]),
         ("c", [("language", Value.vStr "Rust")])]
      = [Value.vStr "Go", Value.vStr "Rust", Value.vStr "go"] := by
  constructor
  · intro store
    refine ⟨?_, jsSorted_pairwise _ _, ?_, jsSorted_pairwise _ _, ?_,
      jsSorted_pairwise _ _, ?_⟩
    · exact (jsSorted_perm _ _).nodup_iff.mpr (setFold_nodup _ [] List.nodup_nil)
    · exact (jsSorted_perm _ _).nodup_iff.mpr (setFold_nodup _ [] List.nodup_nil)
    · exact (jsSorted_perm _ _).nodup_iff.mpr (setFold_nodup _ [] List.nodup_nil)
    · intro p
      rw [getAllTags, (jsSorted_perm primString _).mem_iff]
      exact (setFold_mem _ [] p).trans (by simp [mem_collectTags])
  · decide

/-! ## C9: the client-side title sort -/

theorem localeCompare_isLE_iff {a b : String} :
    (localeCompare a b).isLE = true ↔
      ((lowerStr a).data < (lowerStr b).data ∨
        ((lowerStr a).data = (lowerStr b).data ∧ b.data ≤ a.data)) := by
  rw [localeCompare]
  rcases lt_trichotomy (lowerStr a).data (lowerStr b).data with h | h | h
  · rw [strCmp, if_pos h]
    exact iff_of_true rfl (Or.inl h)
  · rw [strCmp, if_neg (by rw [h]; exact lt_irrefl _), if_neg (by rw [h]; exact lt_irrefl _)]
    show (strCmp b a).isLE = true ↔ _
    rw [strCmp]
    rcases lt_trichotomy b.data a.data with h2 | h2 | h2
    · rw [if_pos h2]
      exact iff_of_true rfl (Or.inr ⟨h, le_of_lt h2⟩)
    · rw [if_neg (by rw [h2]; exact lt_irrefl _), if_neg (by rw [h2]; exact lt_irrefl _)]
      exact iff_of_true rfl (Or.inr ⟨h, le_of_eq h2⟩)
    · rw [if_neg (fun hh => absurd h2 (asymm hh)), if_pos h2]
      refine iff_of_false (by intro hh; cases hh) ?_
      rintro (hl | ⟨_, hba⟩)
      · rw [h] at hl
        exact lt_irrefl _ hl
      · exact absurd hba (not_le.mpr h2)
  · rw [strCmp, if_neg (fun hh => absurd h (asymm hh)), if_pos h]
    refine iff_of_false (by intro hh; cases hh) ?_
    rintro (hl | ⟨heq, _⟩)
    · exact absurd hl (asymm h)
    · rw [heq] at h
      exact lt_irrefl _ h

theorem titleLe_trans (a b c : DocData) (hab : titleLe a b = true)
    (hbc : titleLe b c = true) : titleLe a c = true := by
  rw [titleLe, localeCompare_isLE_iff] at hab hbc ⊢
  rcases hab with h1 | ⟨h1, h1'⟩ <;> rcases hbc with h2 | ⟨h2, h2'⟩
  · exact Or.inl (lt_trans h1 h2)
  · exact Or.inl (h2 ▸ h1)
  · exact Or.inl (h1 ▸ h2)
  · exact Or.inr ⟨h1.trans h2, le_trans h2' h1'⟩

theorem titleLe_total (a b : DocData) : titleLe a b = true ∨ titleLe b a = true := by
  rw [titleLe, titleLe, localeCompare_isLE_iff, localeCompare_isLE_iff]
  rcases lt_trichotomy (lowerStr (titleKey a)).data (lowerStr (titleKey b)).data with h | h | h
  · exact Or.inl (Or.inl h)
  · rcases le_total (titleKey b).data (titleKey a).data with h2 | h2
    · exact Or.inl (Or.inr ⟨h, h2⟩)
    · exact Or.inr (Or.inr ⟨h.symm, h2⟩)
  · exact Or.inr (Or.inl h)

/-- C9: the client-side sort with key `titleAZ` orders any delivered result
set ascending by the locale-aware comparison of titles (missing title read
as the empty string); snippets titled `["banana", "Apple", "cherry"]` sort
to `["Apple", "banana", "cherry"]`; and an unrecognized sort key returns
the result set in its original delivery order rather than failing. -/
theorem getSortedSnippets_titleAZ_spec :
    (∀ snippets : List DocData,
      (getSortedSnippets "titleAZ" snippets).Perm snippets ∧
      (getSortedSnippets "titleAZ" snippets).Pairwise (fun a b => titleLe a b = true)) ∧
    (getSortedSnippets "titleAZ"
        [[("title", Value.vStr "banana")], [("title", Value.vStr "Apple")],
         [("title", Value.vStr "cherry")]]
      = [[("title", Value.vStr "Apple")], [("title", Value.vStr "banana")],
         [("title", Value.vStr "cherry")]]) ∧
    (∀ sortKey : String, sortKey ≠ "newest" → sortKey ≠ "oldest" →
      sortKey ≠ "titleAZ" → sortKey ≠ "titleZA" →
      ∀ snippets : List DocData, getSortedSnippets sortKey snippets = snippets) := by
  refine ⟨?_, by decide, ?_⟩
  · intro snippets
    have hdef : getSortedSnippets "titleAZ" snippets
        = sortBy (fun a b => titleLe a b) snippets := rfl
    rw [hdef]
    exact ⟨sortBy_perm _ _,
      pairwise_sortBy _ (fun a b c => titleLe_trans a b c) titleLe_total snippets⟩
  · intro sortKey h1 h2 h3 h4 snippets
    rw [getSortedSnippets, if_neg h1, if_neg h2, if_neg h3, if_neg h4]

theorem getSortedSnippets_titleAZ_spec_witness :
    getSortedSnippets "zzz"
        [[("title", Value.vStr "b")], [("title", Value.vStr "a")]]
      = [[("title", Value.vStr "b")], [("title", Value.vStr "a")]] :=
  getSortedSnippets_titleAZ_spec.2.2 "zzz" (by decide) (by decide) (by decide) (by decide)
    [[("title", Value.vStr "b")], [("title", Value.vStr "a")]]

/-! ## C2: ordering and the 50-result cap -/

theorem descByCreatedAt_trans (a b c : String × DocData)
    (hab : descByCreatedAt a b = true) (hbc : descByCreatedAt b c = true) :
    descByCreatedAt a c = true := by
  simp only [descByCreatedAt, decide_eq_true_eq] at hab hbc ⊢
  omega

theorem descByCreatedAt_total (a b : String × DocData) :
    descByCreatedAt a b = true ∨ descByCreatedAt b a = true := by
  simp only [descByCreatedAt, decide_eq_true_eq]
  omega

theorem createdAtKey_mkResult (id : String) (d : DocData) :
    createdAtKey (mkResult id d) = createdAtKey d := by
  rw [createdAtKey, createdAtKey, getField_mkResult (by decide)]

theorem orderedDocs_pairwise (f : Filters) (store : Store) :
    (orderedDocs f store).Pairwise
      (fun a b => createdAtKey b.2 ≤ createdAtKey a.2) := by
  have h := pairwise_sortBy descByCreatedAt descByCreatedAt_trans descByCreatedAt_total
    ((matchingDocs f store).filter (fun d => hasCreatedAt d.2))
  exact h.imp (fun hab =>
    of_decide_eq_true (by simpa only [descByCreatedAt] using hab))

theorem matchingDocs_empty (store : Store) :
    matchingDocs emptyFilters store = store := by
  rw [matchingDocs]
  exact List.filter_eq_self.mpr (fun d _ => rfl)

theorem orderedDocs_empty_perm (store : Store)
    (hAll : ∀ d ∈ store, hasCreatedAt d.2 = true) :
    (orderedDocs emptyFilters store).Perm store := by
  rw [orderedDocs, matchingDocs_empty, List.filter_eq_self.mpr hAll]
  exact sortBy_perm _ _

theorem orderedDocs_empty_strict (store : Store)
    (hAll : ∀ d ∈ store, hasCreatedAt d.2 = true)
    (hUniq : (store.map (fun d => createdAtKey d.2)).Nodup) :
    (orderedDocs emptyFilters store).Pairwise
      (fun a b => createdAtKey b.2 < createdAtKey a.2) := by
  have hperm := orderedDocs_empty_perm store hAll
  have hne : (orderedDocs emptyFilters store).Pairwise
      (fun a b => createdAtKey a.2 ≠ createdAtKey b.2) := by
    have h1 : ((orderedDocs emptyFilters store).map (fun d => createdAtKey d.2)).Nodup := by
      rw [(hperm.map (fun d => createdAtKey d.2)).nodup_iff]
      exact hUniq
    rw [List.Nodup, List.pairwise_map] at h1
    exact h1
  exact ((orderedDocs_pairwise emptyFilters store).and hne).imp
    (fun hab => lt_of_le_of_ne hab.1 (fun h => hab.2 h.symm))

theorem getSnippets_empty_exact (store : Store)
    (hAll : ∀ d ∈ store, hasCreatedAt d.2 = true)
    (hUniq : (store.map (fun d => createdAtKey d.2)).Nodup) :
    (getSnippets emptyFilters store).length = min 50 store.length ∧
    (getSnippets emptyFilters store).Pairwise
      (fun r1 r2 => createdAtKey r2 < createdAtKey r1) ∧
    (∀ d ∈ store, mkResult d.1 d.2 ∉ getSnippets emptyFilters store →
      ∀ r ∈ getSnippets emptyFilters store, createdAtKey d.2 < createdAtKey r) := by
  refine ⟨?_, ?_, ?_⟩
  · rw [getSnippets, List.length_map, List.length_take,
      (orderedDocs_empty_perm store hAll).length_eq]
  · have htake := List.Pairwise.sublist (List.take_sublist 50 _)
      (orderedDocs_empty_strict store hAll hUniq)
    rw [getSnippets, List.pairwise_map]
    exact htake.imp (fun hab => by
      rw [createdAtKey_mkResult, createdAtKey_mkResult]
      exact hab)
  · intro d hd hnot r hr
    have hmemsorted : d ∈ orderedDocs emptyFilters store :=
      (orderedDocs_empty_perm store hAll).mem_iff.mpr hd
    have hstrict2 : ((orderedDocs emptyFilters store).take 50
        ++ (orderedDocs emptyFilters store).drop 50).Pairwise
        (fun a b => createdAtKey b.2 < createdAtKey a.2) := by
      rw [List.take_append_drop]
      exact orderedDocs_empty_strict store hAll hUniq
    have hcross := (List.pairwise_append.mp hstrict2).2.2
    have hdin : d ∈ (orderedDocs emptyFilters store).drop 50 := by
      have hsplit : d ∈ (orderedDocs emptyFilters store).take 50
          ++ (orderedDocs emptyFilters store).drop 50 := by
        rw [List.take_append_drop]
        exact hmemsorted
      rcases List.mem_append.mp hsplit with h | h
      · exact absurd (by rw [getSnippets]; exact List.mem_map.mpr ⟨d, h, rfl⟩) hnot
      · exact h
    rw [getSnippets] at hr
    obtain ⟨a, ha, rfl⟩ := List.mem_map.mp hr
    have := hcross a ha d hdin
    rw [createdAtKey_mkResult]
    exact this

/-- C2: for every filter selection the delivered result set is ordered by
`createdAt` descending and holds at most 50 snippets; with zero criteria
(and all documents carrying unique timestamp `createdAt` values) it is
exactly the 50 most-recently-created documents in strictly descending
`createdAt` order, and any matching document beyond the 50 newest is absent
from the result set and strictly older than everything in it. -/
theorem getSnippets_cap_and_order (f : Filters) (store : Store) :
    (getSnippets f store).length ≤ 50 ∧
    (getSnippets f store).Pairwise (fun r1 r2 => createdAtKey r2 ≤ createdAtKey r1) ∧
    ((∀ d ∈ store, hasCreatedAt d.2 = true) →
      (store.map (fun d => createdAtKey d.2)).Nodup →
      (getSnippets emptyFilters store).length = min 50 store.length ∧
      (getSnippets emptyFilters store).Pairwise
        (fun r1 r2 => createdAtKey r2 < createdAtKey r1) ∧
      (∀ d ∈ store, mkResult d.1 d.2 ∉ getSnippets emptyFilters store →
        ∀ r ∈ getSnippets emptyFilters store, createdAtKey d.2 < createdAtKey r)) := by
  refine ⟨?_, ?_, fun hAll hUniq => getSnippets_empty_exact store hAll hUniq⟩
  · rw [getSnippets, List.length_map, List.length_take]
    exact min_le_left _ _
  · have htake := List.Pairwise.sublist (List.take_sublist 50 _)
      (orderedDocs_pairwise f store)
    rw [getSnippets, List.pairwise_map]
    exact htake.imp (fun hab => by
      rw [createdAtKey_mkResult, createdAtKey_mkResult]
      exact hab)

theorem getSnippets_cap_and_order_witness :
    (getSnippets emptyFilters
        [("x", [("createdAt", Value.vTime 1)]), ("y", [("createdAt", Value.vTime 5)])]).length
      = min 50 [("x", [("createdAt", Value.vTime 1)]),
          ("y", [("createdAt", Value.vTime 5)])].length ∧
    (getSnippets emptyFilters
        [("x", [("createdAt", Value.vTime 1)]), ("y", [("createdAt", Value.vTime 5)])]).Pairwise
      (fun r1 r2 => createdAtKey r2 < createdAtKey r1) :=
  have h := (getSnippets_cap_and_order emptyFilters
    [("x", [("createdAt", Value.vTime 1)]), ("y", [("createdAt", Value.vTime 5)])]).2.2
    (by decide) (by decide)
  ⟨h.1, h.2.1⟩
